import Mathlib

/-!
Verification of the connection-registry and lifecycle-coordinator code of the
NodeJS_http_socket repository (`src/types/Room.js` and `src/app.js`).

The registry (`Room`) keeps its clients in a JavaScript `Map`, which preserves
insertion order and replaces on key collision; we model it as an association
list `List (String × ClientInfo)` with `Map.set` / `Map.get` / `Map.delete`
semantics made explicit. Connection handles (`ws` objects) are modelled by the
three capabilities the registry code actually touches: the `readyState` field,
whether `send` succeeds or throws, and the `clientId` metadata that `join`
attaches. Randomness (`crypto.randomBytes(8)`) and the clock (`new Date()`)
are passed in as explicit arguments. Exceptions are modelled with `Except`.
-/

/-- A WebSocket connection handle, reduced to the capabilities the registry
uses: `readyState` (1 = OPEN), whether a `send` call succeeds or throws, and
the `clientId` property that `Room.join` writes onto the handle. -/
structure WS where
  readyState : Nat
  sendOk : Bool
  clientId : Option String := none
deriving Repr, DecidableEq

/-- `ws.send(data)`: succeeds or throws depending on the handle's state.
The registry never inspects the error, only catches it. -/
def WS.send (ws : WS) (data : String) : Except String Unit :=
  if ws.sendOk then Except.ok () else Except.error data

/-- The JSON values of the message wire format (`JSON.parse` output /
`JSON.stringify` input). -/
inductive Json where
  | str (s : String)
  | num (n : Int)
  | bool (b : Bool)
  | null
  | arr (items : List Json)
  | obj (fields : List (String × Json))

mutual

/-- `JSON.stringify` on the modelled JSON values. -/
def stringifyJson : Json → String
  | Json.str s => "\"" ++ s ++ "\""
  | Json.num n => toString n
  | Json.bool b => if b then "true" else "false"
  | Json.null => "null"
  | Json.arr items => "[" ++ stringifyArr items ++ "]"
  | Json.obj fields => "\x7b" ++ stringifyObj fields ++ "\x7d"

/-- Comma-separated serialization of a JSON array's elements. -/
def stringifyArr : List Json → String
  | [] => ""
  | [x] => stringifyJson x
  | x :: y :: xs => stringifyJson x ++ "," ++ stringifyArr (y :: xs)

/-- Comma-separated serialization of a JSON object's fields. -/
def stringifyObj : List (String × Json) → String
  | [] => ""
  | [kv] => "\"" ++ kv.1 ++ "\":" ++ stringifyJson kv.2
  | kv :: kv2 :: xs => "\"" ++ kv.1 ++ "\":" ++ stringifyJson kv.2 ++ "," ++ stringifyObj (kv2 :: xs)

end

/-- One registry entry, `{ ws, id, joinedAt }` as built by `Room.join`. -/
structure ClientInfo where
  ws : WS
  id : String
  joinedAt : Nat
deriving Repr, DecidableEq

/-- The registry state: the `this.clients` JavaScript `Map`, as an
insertion-ordered association list. -/
structure Room where
  clients : List (String × ClientInfo)
deriving Repr, DecidableEq

/-- `Map.prototype.has`. -/
def mapHas (m : List (String × ClientInfo)) (k : String) : Bool :=
  m.any (fun p => p.1 = k)

/-- `Map.prototype.set`: replace in place on an existing key (keeping its
position), otherwise append at the end, as JavaScript `Map` insertion order
prescribes. -/
def mapSet (m : List (String × ClientInfo)) (k : String) (v : ClientInfo) :
    List (String × ClientInfo) :=
  if mapHas m k then m.map (fun p => if p.1 = k then (k, v) else p)
  else m ++ [(k, v)]

/-- `Map.prototype.get`, `undefined` as `none`. -/
def mapGet (m : List (String × ClientInfo)) (k : String) : Option ClientInfo :=
  (m.find? (fun p => p.1 = k)).map (fun p => p.2)

/-- `Map.prototype.delete`: returns whether the key was present, and the map
without it. -/
def mapDelete (m : List (String × ClientInfo)) (k : String) :
    Bool × List (String × ClientInfo) :=
  (mapHas m k, m.filter (fun p => p.1 ≠ k))

/-- Hex digit used by `Buffer.toString('hex')` (lowercase). -/
def hexDigit (n : Nat) : Char :=
  if n < 10 then Char.ofNat (48 + n) else Char.ofNat (87 + n)

/-- One byte as two lowercase hex characters. -/
def byteToHex (b : Nat) : List Char :=
  [hexDigit ((b % 256) / 16), hexDigit (b % 16)]

/-- `crypto.randomBytes(n).toString('hex')`, with the random bytes passed in
explicitly. `randomBytes(8)` supplies a list of length 8. -/
def bytesToHex (bs : List Nat) : String :=
  String.mk ((bs.map byteToHex).flatten)

/-- `new Room()`: empty client map. -/
def Room.init : Room := ⟨[]⟩

/-- `Room.join(client, clientId = null)`, Room.js lines 58-79.
`rnd` stands for the 8 bytes `crypto.randomBytes(8)` would draw and `now` for
`new Date()`. `clientId || ...` treats the empty string like `null` (JS
falsiness). The identity is attached to the handle (`client.clientId = id`);
since JavaScript handles are references, the stored record's `ws` carries the
same attached identity. Returns (new registry, updated handle, assigned id). -/
def Room.join (r : Room) (client : WS) (clientId : Option String)
    (rnd : List Nat) (now : Nat) : Room × WS × String :=
  let id := match clientId with
    | some s => if s = "" then bytesToHex rnd else s
    | none => bytesToHex rnd
  let clientWithId : WS := { client with clientId := some id }
  let clientInfo : ClientInfo := { ws := clientWithId, id := id, joinedAt := now }
  (⟨mapSet r.clients id clientInfo⟩, clientWithId, id)

/-- The `typeof clientOrId === 'string' ? clientOrId : clientOrId.clientId`
branch at the head of `Room.leave` (Room.js lines 95-100). -/
def resolveClientId : Sum WS String → Option String
  | Sum.inr s => some s
  | Sum.inl ws => ws.clientId

/-- `Room.leave(clientOrId)`, Room.js lines 91-120. A missing or empty
resolved id (`if (!clientId)`) is a no-op returning false; otherwise
`Map.delete`. Returns (removed?, new registry). -/
def Room.leave (r : Room) (clientOrId : Sum WS String) : Bool × Room :=
  match resolveClientId clientOrId with
  | none => (false, r)
  | some cid =>
    if cid = "" then (false, r)
    else
      let d := mapDelete r.clients cid
      (d.1, ⟨d.2⟩)

/-- Outcome of one iteration of the `forwardMessage` loop for one record;
these are exactly the per-record events `SocketLogger` receives. -/
inductive SendOutcome where
  | sent
  | skippedClosed
  | writeFailed
deriving Repr, DecidableEq

/-- The body of one `forwardMessage` loop iteration (Room.js lines 142-159):
`try { if (readyState === 1) send else count failure } catch { count failure }`,
accumulating (successCount, failCount, per-record log). -/
def deliverOne (data : String) (acc : Nat × Nat × List (String × SendOutcome))
    (p : String × ClientInfo) : Nat × Nat × List (String × SendOutcome) :=
  if p.2.ws.readyState = 1 then
    match p.2.ws.send data with
    | Except.ok _ => (acc.1 + 1, acc.2.1, acc.2.2 ++ [(p.1, SendOutcome.sent)])
    | Except.error _ => (acc.1, acc.2.1 + 1, acc.2.2 ++ [(p.1, SendOutcome.writeFailed)])
  else (acc.1, acc.2.1 + 1, acc.2.2 ++ [(p.1, SendOutcome.skippedClosed)])

/-- `Room.forwardMessage(message)`, Room.js lines 132-164: iterate every
entry of `this.clients`, per-record liveness check then guarded write.
Returns the (unchanged) registry together with the final success count,
failure count and per-record delivery log. -/
def Room.forwardMessage (r : Room) (message : Json) :
    Room × Nat × Nat × List (String × SendOutcome) :=
  (r, r.clients.foldl (deliverOne (stringifyJson message)) (0, 0, []))

/-- `Room.sendToClient(clientId, message)`, Room.js lines 173-196: lookup,
liveness check, guarded write; every failure path returns `false`, the
surrounding `try` turns a thrown send into `Except.ok false` rather than a
propagated error. -/
def Room.sendToClient (r : Room) (clientId : String) (message : Json) :
    Room × Except String Bool :=
  match mapGet r.clients clientId with
  | none => (r, Except.ok false)
  | some clientInfo =>
    match (if clientInfo.ws.readyState = 1 then
            (clientInfo.ws.send (stringifyJson message)).map (fun _ => true)
          else Except.ok false) with
    | Except.ok b => (r, Except.ok b)
    | Except.error _ => (r, Except.ok false)

/-- `Room.getClient(clientId)`, Room.js lines 204-206 (`null` as `none`). -/
def Room.getClient (r : Room) (clientId : String) : Option ClientInfo :=
  mapGet r.clients clientId

/-- `Room.getClientIds()`: `Array.from(this.clients.keys())`. -/
def Room.getClientIds (r : Room) : List String :=
  r.clients.map (fun p => p.1)

/-- `Room.getClientCount()`: `this.clients.size`. -/
def Room.getClientCount (r : Room) : Nat :=
  r.clients.length

/-- `Room.clear()`. -/
def Room.clear (_ : Room) : Room := ⟨[]⟩

/-- The part of the upgrade request the connection handler reads:
`req.headers.cookie`, which is `undefined` (`none`) when the client sends no
Cookie header. -/
structure UpgradeReq where
  cookie : Option String
deriving Repr, DecidableEq

/-- The structured "connected" acknowledgment built in app.js lines 110-116. -/
def connectedAck (now : Nat) : Json :=
  Json.obj [("type", Json.str "connected"),
            ("message", Json.str "서버에 성공적으로 연결되었습니다"),
            ("timestamp", Json.str (toString now))]

/-- The `wss.on('connection')` handler, app.js lines 60-117: read
`req.headers.cookie` and call `.split('=')` on it (which throws a `TypeError`
when the header is absent, i.e. `cookie = none`, before anything else runs),
then `room.join(ws)`, then send the "connected" acknowledgment (that final
`ws.send` is not wrapped in any try/catch). On success returns the new
registry, the updated handle, the assigned identity and the acknowledgment
payload that was sent. -/
def handleConnection (room : Room) (ws : WS) (req : UpgradeReq)
    (rnd : List Nat) (now : Nat) : Except String (Room × WS × String × Json) :=
  match req.cookie with
  | none => Except.error "TypeError: Cannot read properties of undefined (reading split)"
  | some cookies =>
    let _parts := cookies.splitOn "="
    let res := room.join ws none rnd now
    let ack := connectedAck now
    match res.2.1.send (stringifyJson ack) with
    | Except.ok _ => Except.ok (res.1, res.2.1, res.2.2, ack)
    | Except.error e => Except.error e

/-- Observable result of the `ws.on('message')` handler: the registry
afterwards, the broadcast statistics when `forwardMessage` ran (`none` when
the message was discarded), and whether the handler closed or removed the
connection (it never does). -/
structure MessageOutcome where
  room : Room
  broadcast : Option (Nat × Nat × List (String × SendOutcome))
  connectionClosed : Bool
deriving DecidableEq

/-- The `ws.on('message')` handler, app.js lines 74-89: `JSON.parse` the
text and broadcast the parsed payload; on a parse failure the catch block only
logs and the message is dropped. `JSON.parse` is the platform collaborator,
passed in as `parse` (`none` = throws a SyntaxError). -/
def handleMessage (parse : String → Option Json) (room : Room) (raw : String) :
    MessageOutcome :=
  match parse raw with
  | some parsedMessage =>
    let res := room.forwardMessage parsedMessage
    { room := res.1, broadcast := some res.2, connectionClosed := false }
  | none => { room := room, broadcast := none, connectionClosed := false }

/-- One registry operation, for stating invariants over arbitrary operation
sequences. `join` carries the handle, the optional caller identity, the 8
random bytes `crypto.randomBytes(8)` would return and the clock value. -/
inductive RegistryOp where
  | join (client : WS) (clientId : Option String) (rnd : List Nat) (now : Nat)
  | leave (arg : Sum WS String)
  | forward (message : Json)
  | send (clientId : String) (message : Json)
  | clear

/-- Apply one registry operation to the registry state. -/
def applyOp (r : Room) : RegistryOp → Room
  | RegistryOp.join client cid rnd now => (r.join client cid rnd now).1
  | RegistryOp.leave arg => (r.leave arg).2
  | RegistryOp.forward m => (r.forwardMessage m).1
  | RegistryOp.send cid m => (r.sendToClient cid m).1
  | RegistryOp.clear => r.clear

/-- Apply a sequence of registry operations starting from a given state. -/
def applyOps (r : Room) (ops : List RegistryOp) : Room :=
  ops.foldl applyOp r

/-- Faithfulness of an operation's inputs to the runtime: `crypto.randomBytes(8)`
always hands `join` exactly 8 bytes. -/
def RegistryOp.wf : RegistryOp → Prop
  | RegistryOp.join _ _ rnd _ => rnd.length = 8
  | _ => True

/-- Registry well-formedness: at most one record per identity (the keys are
pairwise distinct) and each stored record's `id` field equals its key. -/
def Room.Wf (r : Room) : Prop :=
  (r.clients.map (fun p => p.1)).Nodup ∧ ∀ p ∈ r.clients, p.2.id = p.1

/-- Outcome of the delivery attempt to a single record, as a function of that
record alone: open-and-successful write, open-but-throwing write, or skipped
because the connection is not open. -/
def attemptOutcome (info : ClientInfo) (data : String) : SendOutcome :=
  if info.ws.readyState = 1 then
    match info.ws.send data with
    | Except.ok _ => SendOutcome.sent
    | Except.error _ => SendOutcome.writeFailed
  else SendOutcome.skippedClosed

/-- Fixture: an open handle whose write succeeds. -/
def wsOpen : WS := { readyState := 1, sendOk := true, clientId := none }

/-- Fixture: an open handle whose write throws. -/
def wsThrowing : WS := { readyState := 1, sendOk := false, clientId := none }

/-- Fixture: a handle whose connection is not open (`readyState` 3). -/
def wsClosed : WS := { readyState := 3, sendOk := true, clientId := none }

/-- Fixture registry holding the single client "a" (open handle). -/
def roomA : Room := (Room.init.join wsOpen (some "a") [0, 0, 0, 0, 0, 0, 0, 0] 0).1

/-- Fixture registry holding clients "a" (open), "b" (throwing write) and
"c" (closed connection). -/
def roomABC : Room :=
  (((Room.init.join wsOpen (some "a") [0, 0, 0, 0, 0, 0, 0, 0] 0).1.join wsThrowing
      (some "b") [0, 0, 0, 0, 0, 0, 0, 0] 1).1.join wsClosed
      (some "c") [0, 0, 0, 0, 0, 0, 0, 0] 2).1

/-- Fixture registry already containing the identity that eight zero random
bytes would generate, to exhibit a random-identity collision. -/
def roomHex : Room :=
  (Room.init.join wsOpen (some "0000000000000000") [1, 1, 1, 1, 1, 1, 1, 1] 0).1

/-- The sixteen lowercase hex characters of `Buffer.toString('hex')`. -/
def hexChars : List Char := "0123456789abcdef".data

@[simp] theorem mapHas_nil (k : String) : mapHas [] k = false := rfl

@[simp] theorem mapHas_cons (a : String × ClientInfo) (t : List (String × ClientInfo))
    (k : String) : mapHas (a :: t) k = (decide (a.1 = k) || mapHas t k) := by
  simp [mapHas]

@[simp] theorem mapGet_nil (k : String) : mapGet [] k = none := rfl

@[simp] theorem mapGet_cons (a : String × ClientInfo) (t : List (String × ClientInfo))
    (k : String) : mapGet (a :: t) k = if a.1 = k then some a.2 else mapGet t k := by
  by_cases h : a.1 = k <;> simp [mapGet, List.find?_cons, h]

theorem mapGet_eq_none_of_not_has (m : List (String × ClientInfo)) (k : String)
    (h : mapHas m k = false) : mapGet m k = none := by
  induction m with
  | nil => rfl
  | cons a t ih =>
    simp at h
    simp [h.1, ih h.2]

theorem mapGet_isSome_of_has (m : List (String × ClientInfo)) (k : String)
    (h : mapHas m k = true) : (mapGet m k).isSome := by
  induction m with
  | nil => simp at h
  | cons a t ih =>
    by_cases hk : a.1 = k
    · simp [hk]
    · simp [hk] at h ⊢
      exact ih h


theorem mapGet_replace_self (m : List (String × ClientInfo)) (k : String) (v : ClientInfo)
    (h : mapHas m k = true) :
    mapGet (m.map (fun p => if p.1 = k then (k, v) else p)) k = some v := by
  induction m with
  | nil => simp at h
  | cons a t ih =>
    by_cases hk : a.1 = k
    · simp [hk]
    · simp [hk] at h ⊢
      exact ih h

theorem mapGet_append_single_self (m : List (String × ClientInfo)) (k : String)
    (v : ClientInfo) (h : mapHas m k = false) :
    mapGet (m ++ [(k, v)]) k = some v := by
  induction m with
  | nil => simp
  | cons a t ih =>
    simp at h
    simp [h.1, ih h.2]

theorem mapGet_mapSet_self (m : List (String × ClientInfo)) (k : String) (v : ClientInfo) :
    mapGet (mapSet m k v) k = some v := by
  unfold mapSet
  by_cases h : mapHas m k = true
  · simp only [h, if_true]
    exact mapGet_replace_self m k v h
  · rw [Bool.not_eq_true] at h
    simp only [h, Bool.false_eq_true, if_false]
    exact mapGet_append_single_self m k v h

theorem mapGet_replace_ne (m : List (String × ClientInfo)) (k k' : String) (v : ClientInfo)
    (h : k' ≠ k) :
    mapGet (m.map (fun p => if p.1 = k then (k, v) else p)) k' = mapGet m k' := by
  induction m with
  | nil => simp
  | cons a t ih =>
    by_cases hk : a.1 = k
    · simp [hk, Ne.symm h, ih]
    · by_cases hk' : a.1 = k'
      · simp [hk, hk', h]
      · simp [hk, hk', ih]

theorem mapGet_append_single_ne (m : List (String × ClientInfo)) (k k' : String)
    (v : ClientInfo) (h : k' ≠ k) :
    mapGet (m ++ [(k, v)]) k' = mapGet m k' := by
  induction m with
  | nil => simp [Ne.symm h]
  | cons a t ih =>
    by_cases hk' : a.1 = k'
    · simp [hk']
    · simp [hk', ih]

theorem mapGet_mapSet_ne (m : List (String × ClientInfo)) (k k' : String) (v : ClientInfo)
    (h : k' ≠ k) : mapGet (mapSet m k v) k' = mapGet m k' := by
  unfold mapSet
  by_cases hh : mapHas m k = true
  · simp only [hh, if_true]
    exact mapGet_replace_ne m k k' v h
  · rw [Bool.not_eq_true] at hh
    simp only [hh, Bool.false_eq_true, if_false]
    exact mapGet_append_single_ne m k k' v h

theorem keys_replace (m : List (String × ClientInfo)) (k : String) (v : ClientInfo) :
    (m.map (fun p => if p.1 = k then (k, v) else p)).map (fun p => p.1) =
      m.map (fun p => p.1) := by
  induction m with
  | nil => rfl
  | cons a t ih =>
    by_cases hk : a.1 = k
    · simp [hk, ih]
    · simp [hk, ih]

theorem keys_mapSet (m : List (String × ClientInfo)) (k : String) (v : ClientInfo) :
    (mapSet m k v).map (fun p => p.1) =
      if mapHas m k then m.map (fun p => p.1) else m.map (fun p => p.1) ++ [k] := by
  unfold mapSet
  by_cases h : mapHas m k = true
  · simp only [h, if_true]
    exact keys_replace m k v
  · rw [Bool.not_eq_true] at h
    simp [h]

theorem mapHas_iff_mem (m : List (String × ClientInfo)) (k : String) :
    mapHas m k = true ↔ k ∈ m.map (fun p => p.1) := by
  simp [mapHas, List.any_eq_true, List.mem_map]

theorem length_mapSet (m : List (String × ClientInfo)) (k : String) (v : ClientInfo) :
    (mapSet m k v).length = if mapHas m k then m.length else m.length + 1 := by
  unfold mapSet
  by_cases h : mapHas m k = true
  · simp [h]
  · rw [Bool.not_eq_true] at h
    simp [h]

theorem mapGet_filter_self (m : List (String × ClientInfo)) (k : String) :
    mapGet (m.filter (fun p => p.1 ≠ k)) k = none := by
  induction m with
  | nil => rfl
  | cons a t ih =>
    by_cases hk : a.1 = k
    · simpa [hk] using ih
    · simpa [hk] using ih

theorem mapGet_filter_ne (m : List (String × ClientInfo)) (k k' : String) (h : k' ≠ k) :
    mapGet (m.filter (fun p => p.1 ≠ k)) k' = mapGet m k' := by
  induction m with
  | nil => rfl
  | cons a t ih =>
    by_cases hk : a.1 = k
    · have ha : a.1 ≠ k' := by rw [hk]; exact Ne.symm h
      simpa [hk, ha, Ne.symm h] using ih
    · by_cases hk' : a.1 = k'
      · simp [List.filter_cons, hk, hk', h]
      · simpa [hk, hk'] using ih

theorem filter_eq_self_of_not_has (m : List (String × ClientInfo)) (k : String)
    (h : mapHas m k = false) : m.filter (fun p => p.1 ≠ k) = m := by
  rw [List.filter_eq_self]
  intro p hp
  simp only [ne_eq, decide_eq_true_eq]
  simp [mapHas] at h
  exact h p.1 p.2 hp

theorem mapHas_filter_self (m : List (String × ClientInfo)) (k : String) :
    mapHas (m.filter (fun p => p.1 ≠ k)) k = false := by
  induction m with
  | nil => rfl
  | cons a t ih =>
    by_cases hk : a.1 = k
    · simpa [hk] using ih
    · simpa [hk] using ih

theorem nodup_keys_mapSet (m : List (String × ClientInfo)) (k : String) (v : ClientInfo)
    (h : (m.map (fun p => p.1)).Nodup) : ((mapSet m k v).map (fun p => p.1)).Nodup := by
  rw [keys_mapSet]
  by_cases hh : mapHas m k = true
  · simpa [hh] using h
  · rw [Bool.not_eq_true] at hh
    have hk : k ∉ m.map (fun p => p.1) := by
      intro hmem
      rw [← mapHas_iff_mem] at hmem
      rw [hmem] at hh
      cases hh
    simp [hh, List.nodup_append, h, hk]

theorem nodup_keys_filter (m : List (String × ClientInfo)) (q : String × ClientInfo → Bool)
    (h : (m.map (fun p => p.1)).Nodup) : ((m.filter q).map (fun p => p.1)).Nodup :=
  List.Nodup.sublist (List.Sublist.map _ (List.filter_sublist m)) h

theorem idkey_mapSet (m : List (String × ClientInfo)) (k : String) (v : ClientInfo)
    (h : ∀ p ∈ m, p.2.id = p.1) (hv : v.id = k) : ∀ p ∈ mapSet m k v, p.2.id = p.1 := by
  intro p hp
  unfold mapSet at hp
  by_cases hh : mapHas m k = true
  · simp only [hh, if_true, List.mem_map] at hp
    obtain ⟨q, hq, hpq⟩ := hp
    by_cases hqk : q.1 = k
    · simp [hqk] at hpq
      rw [← hpq]
      exact hv
    · simp [hqk] at hpq
      rw [← hpq]
      exact h q hq
  · rw [Bool.not_eq_true] at hh
    simp only [hh, Bool.false_eq_true, if_false, List.mem_append, List.mem_singleton] at hp
    cases hp with
    | inl hp => exact h p hp
    | inr hp => rw [hp]; exact hv

theorem idkey_filter (m : List (String × ClientInfo)) (q : String × ClientInfo → Bool)
    (h : ∀ p ∈ m, p.2.id = p.1) : ∀ p ∈ m.filter q, p.2.id = p.1 := by
  intro p hp
  exact h p (List.mem_of_mem_filter hp)

theorem forwardMessage_fst (r : Room) (msg : Json) : (r.forwardMessage msg).1 = r := rfl

theorem sendToClient_fst (r : Room) (cid : String) (msg : Json) :
    (r.sendToClient cid msg).1 = r := by
  unfold Room.sendToClient
  cases h : mapGet r.clients cid with
  | none => rfl
  | some clientInfo =>
    cases hb : (if clientInfo.ws.readyState = 1 then
        (clientInfo.ws.send (stringifyJson msg)).map (fun _ => true)
      else Except.ok false) with
    | ok b => simp [hb]
    | error e => simp [hb]

theorem wf_applyOp (r : Room) (op : RegistryOp) (h : r.Wf) : (applyOp r op).Wf := by
  cases op with
  | join client cid rnd now =>
    refine ⟨nodup_keys_mapSet _ _ _ h.1, idkey_mapSet _ _ _ h.2 rfl⟩
  | leave arg =>
    show (r.leave arg).2.Wf
    unfold Room.leave
    cases hres : resolveClientId arg with
    | none => exact h
    | some cid =>
      by_cases hc : cid = ""
      · simp only [hc, if_true]
        exact h
      · simp only [hc, if_false]
        exact ⟨nodup_keys_filter _ _ h.1, idkey_filter _ _ h.2⟩
  | forward m => exact h
  | send cid m =>
    show ((r.sendToClient cid m).1).Wf
    rw [sendToClient_fst]
    exact h
  | clear => exact ⟨List.nodup_nil, by intro p hp; cases hp⟩

theorem wf_init : Room.init.Wf := ⟨List.nodup_nil, by intro p hp; cases hp⟩

theorem wf_applyOps (r : Room) (ops : List RegistryOp) (h : r.Wf) : (applyOps r ops).Wf := by
  induction ops generalizing r with
  | nil => exact h
  | cons op t ih => exact ih _ (wf_applyOp r op h)

theorem foldl_deliverOne_log (data : String) (l : List (String × ClientInfo))
    (s f : Nat) (log : List (String × SendOutcome)) :
    (l.foldl (deliverOne data) (s, f, log)).2.2 =
      log ++ l.map (fun p => (p.1, attemptOutcome p.2 data)) := by
  induction l generalizing s f log with
  | nil => simp
  | cons a t ih =>
    rw [List.foldl_cons]
    by_cases hrs : a.2.ws.readyState = 1
    · cases hsend : a.2.ws.send data with
      | ok u => simp [deliverOne, attemptOutcome, hrs, hsend, ih]
      | error e => simp [deliverOne, attemptOutcome, hrs, hsend, ih]
    · simp [deliverOne, attemptOutcome, hrs, ih]

theorem foldl_deliverOne_counts (data : String) (l : List (String × ClientInfo))
    (s f : Nat) (log : List (String × SendOutcome)) :
    (l.foldl (deliverOne data) (s, f, log)).1 +
      (l.foldl (deliverOne data) (s, f, log)).2.1 = s + f + l.length := by
  induction l generalizing s f log with
  | nil => simp
  | cons a t ih =>
    rw [List.foldl_cons]
    by_cases hrs : a.2.ws.readyState = 1
    · cases hsend : a.2.ws.send data with
      | ok u =>
        have hd : deliverOne data (s, f, log) a =
            (s + 1, f, log ++ [(a.1, SendOutcome.sent)]) := by
          simp [deliverOne, hrs, hsend]
        rw [hd, ih]
        simp only [List.length_cons]
        omega
      | error e =>
        have hd : deliverOne data (s, f, log) a =
            (s, f + 1, log ++ [(a.1, SendOutcome.writeFailed)]) := by
          simp [deliverOne, hrs, hsend]
        rw [hd, ih]
        simp only [List.length_cons]
        omega
    · have hd : deliverOne data (s, f, log) a =
          (s, f + 1, log ++ [(a.1, SendOutcome.skippedClosed)]) := by
        simp [deliverOne, hrs]
      rw [hd, ih]
      simp only [List.length_cons]
      omega

theorem bytesToHex_length (bs : List Nat) : (bytesToHex bs).length = 2 * bs.length := by
  induction bs with
  | nil => rfl
  | cons b t ih =>
    simp only [bytesToHex, String.length] at ih ⊢
    simp only [List.map_cons, List.flatten_cons, List.length_append, List.length_cons]
    simp at ih ⊢
    have hb : (byteToHex b).length = 2 := rfl
    omega

theorem join_id_ne_empty (r : Room) (client : WS) (cid : Option String) (rnd : List Nat)
    (now : Nat) (hr : rnd.length = 8) :
    (r.join client cid rnd now).2.2 ≠ "" := by
  unfold Room.join
  cases cid with
  | none =>
    intro hcon
    have := congrArg String.length hcon
    rw [bytesToHex_length, hr] at this
    simp at this
  | some s =>
    by_cases hs : s = ""
    · simp only [hs, if_true]
      intro hcon
      have := congrArg String.length hcon
      rw [bytesToHex_length, hr] at this
      simp at this
    · simp only [hs, if_false]
      intro hcon
      exact hs hcon

theorem join_snd_snd (r : Room) (client : WS) (cid : Option String) (rnd : List Nat)
    (now : Nat) :
    (r.join client cid rnd now).2.2 =
      (match cid with
        | some s => if s = "" then bytesToHex rnd else s
        | none => bytesToHex rnd) := rfl

theorem join_clients (r : Room) (client : WS) (cid : Option String) (rnd : List Nat)
    (now : Nat) :
    (r.join client cid rnd now).1.clients =
      mapSet r.clients ((r.join client cid rnd now).2.2)
        { ws := { client with clientId := some ((r.join client cid rnd now).2.2) },
          id := (r.join client cid rnd now).2.2, joinedAt := now } := rfl

theorem sendToClient_snd (r : Room) (cid : String) (message : Json) :
    (r.sendToClient cid message).2 =
      Except.ok (match mapGet r.clients cid with
        | none => false
        | some clientInfo =>
          if clientInfo.ws.readyState = 1 then clientInfo.ws.sendOk else false) := by
  unfold Room.sendToClient
  cases h : mapGet r.clients cid with
  | none => rfl
  | some clientInfo =>
    by_cases hrs : clientInfo.ws.readyState = 1
    · cases hok : clientInfo.ws.sendOk with
      | true => simp [hrs, hok, WS.send, Except.map]
      | false => simp [hrs, hok, WS.send, Except.map]
    · simp [hrs]

theorem countP_le_one_of_nodup_keys (m : List (String × ClientInfo))
    (h : (m.map (fun p => p.1)).Nodup) (k : String) :
    m.countP (fun p => p.1 = k) ≤ 1 := by
  induction m with
  | nil => simp
  | cons a t ih =>
    rw [List.map_cons, List.nodup_cons] at h
    rw [List.countP_cons]
    by_cases hk : a.1 = k
    · have hz : t.countP (fun p => p.1 = k) = 0 := by
        rw [List.countP_eq_zero]
        intro p hp
        simp only [decide_eq_true_eq]
        intro hpk
        exact h.1 (by
          have hm : p.1 ∈ List.map (fun p => p.1) t :=
            List.mem_map_of_mem (fun p => p.1) hp
          rwa [hpk, ← hk] at hm)
      simp [hk, hz]
    · have hd : (decide (a.1 = k)) = false := by simp [hk]
      rw [hd]
      simpa using ih h.2

theorem mapGet_id_eq (m : List (String × ClientInfo)) (k : String) (info : ClientInfo)
    (hid : ∀ p ∈ m, p.2.id = p.1) (h : mapGet m k = some info) : info.id = k := by
  unfold mapGet at h
  cases hf : m.find? (fun p => p.1 = k) with
  | none => rw [hf] at h; cases h
  | some p =>
    rw [hf] at h
    injection h with h'
    have h1 : p.1 = k := by
      have := List.find?_some hf
      simpa using this
    have h2 : p ∈ m := List.mem_of_find?_eq_some hf
    rw [← h', hid p h2, h1]

theorem mapHas_mapSet_self (m : List (String × ClientInfo)) (k : String) (v : ClientInfo) :
    mapHas (mapSet m k v) k = true := by
  rw [mapHas_iff_mem, keys_mapSet]
  by_cases h : mapHas m k = true
  · simp only [h, if_true]
    exact (mapHas_iff_mem m k).1 h
  · rw [Bool.not_eq_true] at h
    simp [h]

theorem filter_mapSet_erase (m : List (String × ClientInfo)) (k : String) (v : ClientInfo)
    (h : mapHas m k = false) : (mapSet m k v).filter (fun p => p.1 ≠ k) = m := by
  unfold mapSet
  simp only [h, Bool.false_eq_true, if_false]
  rw [List.filter_append, filter_eq_self_of_not_has m k h]
  simp

theorem mem_keys_mapSet (m : List (String × ClientInfo)) (k k' : String) (v : ClientInfo)
    (h : k' ∈ (mapSet m k v).map (fun p => p.1)) :
    k' ∈ m.map (fun p => p.1) ∨ k' = k := by
  rw [keys_mapSet] at h
  by_cases hh : mapHas m k = true
  · simp only [hh, if_true] at h
    exact Or.inl h
  · rw [Bool.not_eq_true] at hh
    simp only [hh, Bool.false_eq_true, if_false, List.mem_append, List.mem_singleton] at h
    exact h

theorem hexDigit_mem (n : Nat) (h : n < 16) : hexDigit n ∈ hexChars := by
  interval_cases n <;> decide

theorem byteToHex_mem (b : Nat) (c : Char) (h : c ∈ byteToHex b) : c ∈ hexChars := by
  have h1 : b % 256 < 256 := Nat.mod_lt _ (by norm_num)
  have h2 : (b % 256) / 16 < 16 := by omega
  have h3 : b % 16 < 16 := Nat.mod_lt _ (by norm_num)
  simp only [byteToHex, List.mem_cons, List.mem_singleton, List.not_mem_nil, or_false] at h
  cases h with
  | inl h => rw [h]; exact hexDigit_mem _ h2
  | inr h => rw [h]; exact hexDigit_mem _ h3

theorem bytesToHex_mem (bs : List Nat) (c : Char) (h : c ∈ (bytesToHex bs).data) :
    c ∈ hexChars := by
  simp only [bytesToHex, List.mem_flatten, List.mem_map] at h
  obtain ⟨l, ⟨b, hb, hl⟩, hc⟩ := h
  rw [← hl] at hc
  exact byteToHex_mem b c hc

/-- C1: for every registry state and payload, `forwardMessage` attempts
delivery once for each registered record: the per-record log has exactly one
entry per record in iteration order, so total attempts (and successCount +
failCount) equal `getClientCount()` at call time; and each record's outcome is
a function of that record alone (`attemptOutcome`), so an exception thrown by
one recipient's write cannot prevent the delivery attempts to the recipients
iterated after it. -/
theorem forwardMessage_attempts_every_record (r : Room) (message : Json) :
    (r.forwardMessage message).2.2.2 =
      r.clients.map (fun p => (p.1, attemptOutcome p.2 (stringifyJson message))) ∧
    (r.forwardMessage message).2.2.2.length = r.getClientCount ∧
    (r.forwardMessage message).2.1 + (r.forwardMessage message).2.2.1 = r.getClientCount := by
  have hlog := foldl_deliverOne_log (stringifyJson message) r.clients 0 0 []
  have hcnt := foldl_deliverOne_counts (stringifyJson message) r.clients 0 0 []
  refine ⟨?_, ?_, ?_⟩
  · simpa [Room.forwardMessage] using hlog
  · show (r.clients.foldl (deliverOne (stringifyJson message)) (0, 0, [])).2.2.length = _
    rw [hlog]
    simp [Room.getClientCount]
  · simpa [Room.forwardMessage, Room.getClientCount] using hcnt

/-- C10: `forwardMessage` and `sendToClient` never modify the registry
mapping: the registry component of their results is the input registry, so
`getClientCount()`, `getClientIds()` and every `getClient(id)` lookup are the
same before and after the call, regardless of how many deliveries fail. -/
theorem forward_send_preserve_registry (r : Room) (message : Json) (cid : String) :
    (r.forwardMessage message).1 = r ∧ (r.sendToClient cid message).1 = r ∧
    (r.forwardMessage message).1.getClientCount = r.getClientCount ∧
    (r.forwardMessage message).1.getClientIds = r.getClientIds ∧
    (∀ k, (r.forwardMessage message).1.getClient k = r.getClient k) ∧
    (r.sendToClient cid message).1.getClientCount = r.getClientCount ∧
    (r.sendToClient cid message).1.getClientIds = r.getClientIds ∧
    (∀ k, (r.sendToClient cid message).1.getClient k = r.getClient k) := by
  have hf := forwardMessage_fst r message
  have hs := sendToClient_fst r cid message
  exact ⟨hf, hs, by rw [hf], by rw [hf], fun k => by rw [hf],
    by rw [hs], by rw [hs], fun k => by rw [hs]⟩

/-- C5: `sendToClient` never raises to the caller (its result is always an
`Except.ok` boolean), and that boolean is `false` when the identity is absent,
`false` when the target's connection is not open (`readyState ≠ 1`), `true`
when the write succeeds, and `false` when the write throws. -/
theorem sendToClient_boolean_contract (r : Room) (cid : String) (message : Json) :
    (∃ b : Bool, (r.sendToClient cid message).2 = Except.ok b) ∧
    (r.getClient cid = none → (r.sendToClient cid message).2 = Except.ok false) ∧
    (∀ info, r.getClient cid = some info → info.ws.readyState ≠ 1 →
      (r.sendToClient cid message).2 = Except.ok false) ∧
    (∀ info, r.getClient cid = some info → info.ws.readyState = 1 →
      info.ws.sendOk = true → (r.sendToClient cid message).2 = Except.ok true) ∧
    (∀ info, r.getClient cid = some info → info.ws.readyState = 1 →
      info.ws.sendOk = false → (r.sendToClient cid message).2 = Except.ok false) := by
  have hsnd := sendToClient_snd r cid message
  refine ⟨⟨_, hsnd⟩, ?_, ?_, ?_, ?_⟩
  · intro h
    rw [hsnd]
    unfold Room.getClient at h
    rw [h]
  · intro info h hrs
    rw [hsnd]
    unfold Room.getClient at h
    rw [h]
    simp [hrs]
  · intro info h hrs hok
    rw [hsnd]
    unfold Room.getClient at h
    rw [h]
    simp [hrs, hok]
  · intro info h hrs hok
    rw [hsnd]
    unfold Room.getClient at h
    rw [h]
    simp [hrs, hok]

/-- Witness for C5 on the three-client fixture: delivery to "a" succeeds,
"b" (write throws) and "c" (closed) report `false`, and an unknown identity
reports `false`. -/
theorem sendToClient_boolean_contract_witness :
    (roomABC.sendToClient "a" Json.null).2 = Except.ok true ∧
    (roomABC.sendToClient "b" Json.null).2 = Except.ok false ∧
    (roomABC.sendToClient "c" Json.null).2 = Except.ok false ∧
    (roomABC.sendToClient "zzz" Json.null).2 = Except.ok false := by
  refine ⟨?_, ?_, ?_, ?_⟩
  · exact (sendToClient_boolean_contract roomABC "a" Json.null).2.2.2.1
      ⟨⟨1, true, some "a"⟩, "a", 0⟩ (by decide) (by decide) (by decide)
  · exact (sendToClient_boolean_contract roomABC "b" Json.null).2.2.2.2
      ⟨⟨1, false, some "b"⟩, "b", 1⟩ (by decide) (by decide) (by decide)
  · exact (sendToClient_boolean_contract roomABC "c" Json.null).2.2.1
      ⟨⟨3, true, some "c"⟩, "c", 2⟩ (by decide) (by decide)
  · exact (sendToClient_boolean_contract roomABC "zzz" Json.null).2.1 (by decide)

/-- C7: an inbound message whose text fails to parse (`JSON.parse` throws) is
reported to the logger and discarded: `forwardMessage` is not invoked (no
broadcast), the connection is not closed, and the registry — in particular
its client count — is unchanged. -/
theorem malformed_message_discarded (parse : String → Option Json) (room : Room)
    (raw : String) (h : parse raw = none) :
    handleMessage parse room raw =
      { room := room, broadcast := none, connectionClosed := false } ∧
    (handleMessage parse room raw).room.getClientCount = room.getClientCount := by
  constructor
  · unfold handleMessage
    rw [h]
  · unfold handleMessage
    rw [h]

/-- Witness for C7: the malformed text `"{not json"` against the three-client
fixture is dropped with the registry untouched. -/
theorem malformed_message_discarded_witness :
    handleMessage (fun _ => none) roomABC "\x7bnot json" =
      { room := roomABC, broadcast := none, connectionClosed := false } ∧
    (handleMessage (fun _ => none) roomABC "\x7bnot json").room.getClientCount = 3 :=
  ⟨(malformed_message_discarded (fun _ => none) roomABC "\x7bnot json" rfl).1, by
    rw [(malformed_message_discarded (fun _ => none) roomABC "\x7bnot json" rfl).2]
    decide⟩

/-- C3 (code bug): the claim — and the spec — say handshake metadata is only
an optional hint, with `Registry.join` and the "connected" acknowledgment
happening regardless of what the transport provides or omits. The handler
instead dereferences `req.headers.cookie` with `.split('=')` before anything
else, so a connection carrying no Cookie header throws a `TypeError` before
`room.join` runs: the client is neither registered nor acknowledged. -/
theorem handleConnection_missing_cookie_crashes (room : Room) (ws : WS)
    (rnd : List Nat) (now : Nat) :
    handleConnection room ws { cookie := none } rnd now =
      Except.error "TypeError: Cannot read properties of undefined (reading split)" := rfl

/-- C2: for every sequence of registry operations the mapping holds at most
one record per identity, and `join` with an identity already present replaces
the prior record last-write-wins: afterwards `getClient` on that identity
yields the record built from the newest connection handle, lookups at other
keys are untouched, the client count is unchanged, and — whenever the new
record differs from the old — the prior record is no longer reachable through
the registry at any key. -/
theorem registry_unique_identity_last_write_wins :
    (∀ (ops : List RegistryOp) (id : String),
      (applyOps Room.init ops).clients.countP (fun p => p.1 = id) ≤ 1) ∧
    (∀ (r : Room) (id : String) (client : WS) (rnd : List Nat) (now : Nat),
      r.Wf → mapHas r.clients id = true → id ≠ "" →
      ((r.join client (some id) rnd now).1.getClient id =
          some { ws := { client with clientId := some id }, id := id, joinedAt := now } ∧
        (r.join client (some id) rnd now).1.getClientCount = r.getClientCount ∧
        (∀ k, k ≠ id → (r.join client (some id) rnd now).1.getClient k = r.getClient k) ∧
        ∀ oldInfo, r.getClient id = some oldInfo →
          oldInfo ≠ { ws := { client with clientId := some id }, id := id, joinedAt := now } →
          ∀ k, (r.join client (some id) rnd now).1.getClient k ≠ some oldInfo)) := by
  constructor
  · intro ops id
    exact countP_le_one_of_nodup_keys _ (wf_applyOps Room.init ops wf_init).1 id
  · intro r id client rnd now hwf hhas hne
    have hid : (r.join client (some id) rnd now).2.2 = id := by
      rw [join_snd_snd]
      simp [hne]
    have hcl : (r.join client (some id) rnd now).1.clients =
        mapSet r.clients id
          { ws := { client with clientId := some id }, id := id, joinedAt := now } := by
      rw [join_clients, hid]
    refine ⟨?_, ?_, ?_, ?_⟩
    · show mapGet (r.join client (some id) rnd now).1.clients id = _
      rw [hcl]
      exact mapGet_mapSet_self _ _ _
    · show (r.join client (some id) rnd now).1.clients.length = r.clients.length
      rw [hcl, length_mapSet, hhas]
      simp
    · intro k hk
      show mapGet (r.join client (some id) rnd now).1.clients k = mapGet r.clients k
      rw [hcl]
      exact mapGet_mapSet_ne _ _ _ _ hk
    · intro oldInfo hold hne2 k
      by_cases hkid : k = id
      · show mapGet (r.join client (some id) rnd now).1.clients k ≠ some oldInfo
        rw [hkid, hcl, mapGet_mapSet_self]
        intro hcon
        injection hcon with hcon'
        exact hne2 hcon'.symm
      · show mapGet (r.join client (some id) rnd now).1.clients k ≠ some oldInfo
        rw [hcl, mapGet_mapSet_ne _ _ _ _ hkid]
        intro hcon
        have h1 : oldInfo.id = k := mapGet_id_eq r.clients k oldInfo hwf.2 hcon
        have h2 : oldInfo.id = id := mapGet_id_eq r.clients id oldInfo hwf.2 hold
        exact hkid (h1.symm.trans h2)

/-- Witness for C2: re-joining the fixture registry's identity "a" with a new
(throwing) handle replaces the record in place — `getClient "a"` shows the
new handle and the count stays 1. -/
theorem registry_unique_last_write_wins_witness :
    (roomA.join wsThrowing (some "a") [9, 9, 9, 9, 9, 9, 9, 9] 5).1.getClient "a" =
      some { ws := { wsThrowing with clientId := some "a" }, id := "a", joinedAt := 5 } ∧
    (roomA.join wsThrowing (some "a") [9, 9, 9, 9, 9, 9, 9, 9] 5).1.getClientCount = 1 := by
  have h := registry_unique_identity_last_write_wins.2 roomA "a" wsThrowing
    [9, 9, 9, 9, 9, 9, 9, 9] 5 ⟨by decide, by decide⟩ (by decide) (by decide)
  refine ⟨h.1, ?_⟩
  rw [h.2.1]
  decide

/-- C6: `leave` resolves its argument to an identity — a string argument is
the identity itself, a handle argument yields the `clientId` metadata attached
at join — removes the record and returns `true` when that identity is
registered, and returns `false` with no error and no registry change when the
identity is absent or not resolvable (a handle without metadata, or the falsy
empty string). -/
theorem leave_resolution_contract (r : Room) (arg : Sum WS String) :
    (∀ cid, resolveClientId arg = some cid → cid ≠ "" →
      (mapHas r.clients cid = true →
        (r.leave arg).1 = true ∧ (r.leave arg).2.getClient cid = none ∧
        ∀ k, k ≠ cid → (r.leave arg).2.getClient k = r.getClient k) ∧
      (mapHas r.clients cid = false →
        (r.leave arg).1 = false ∧ (r.leave arg).2 = r)) ∧
    ((resolveClientId arg = none ∨ resolveClientId arg = some "") →
      (r.leave arg).1 = false ∧ (r.leave arg).2 = r) := by
  constructor
  · intro cid hres hne
    have hleave : r.leave arg =
        (mapHas r.clients cid, ⟨r.clients.filter (fun p => p.1 ≠ cid)⟩) := by
      unfold Room.leave
      rw [hres]
      simp [hne, mapDelete]
    constructor
    · intro hhas
      refine ⟨by rw [hleave, hhas], ?_, ?_⟩
      · rw [hleave]
        exact mapGet_filter_self _ _
      · intro k hk
        rw [hleave]
        exact mapGet_filter_ne _ _ _ hk
    · intro hhas
      refine ⟨by rw [hleave, hhas], ?_⟩
      rw [hleave]
      show (⟨r.clients.filter (fun p => p.1 ≠ cid)⟩ : Room) = r
      rw [filter_eq_self_of_not_has _ _ hhas]
  · intro hres
    have hleave : r.leave arg = (false, r) := by
      unfold Room.leave
      cases hres with
      | inl h => rw [h]
      | inr h => rw [h]; simp
    rw [hleave]
    exact ⟨rfl, rfl⟩

/-- Witness for C6: removing "a" from the one-client fixture by identity
succeeds and empties the slot; an unknown identity and a handle carrying no
attached metadata are false no-ops leaving the registry untouched. -/
theorem leave_resolution_contract_witness :
    (roomA.leave (Sum.inr "a")).1 = true ∧
    (roomA.leave (Sum.inr "a")).2.getClient "a" = none ∧
    (roomA.leave (Sum.inr "zzz")).1 = false ∧
    (roomA.leave (Sum.inr "zzz")).2 = roomA ∧
    (roomA.leave (Sum.inl wsOpen)).1 = false ∧
    (roomA.leave (Sum.inl wsOpen)).2 = roomA := by
  have h1 := ((leave_resolution_contract roomA (Sum.inr "a")).1 "a" rfl
    (by decide)).1 (by decide)
  have h2 := ((leave_resolution_contract roomA (Sum.inr "zzz")).1 "zzz" rfl
    (by decide)).2 (by decide)
  have h3 := (leave_resolution_contract roomA (Sum.inl wsOpen)).2 (Or.inl rfl)
  exact ⟨h1.1, h1.2.1, h2.1, h2.2, h3.1, h3.2⟩

theorem leave_inr (r : Room) (s : String) (h : s ≠ "") :
    r.leave (Sum.inr s) =
      (mapHas r.clients s, ⟨r.clients.filter (fun p => p.1 ≠ s)⟩) := by
  unfold Room.leave
  simp [resolveClientId, h, mapDelete]

theorem leave_keys_subset (r : Room) (arg : Sum WS String) :
    ((r.leave arg).2.clients.map (fun p => p.1)) ⊆ r.clients.map (fun p => p.1) := by
  unfold Room.leave
  cases hres : resolveClientId arg with
  | none => exact fun x hx => hx
  | some cid =>
    by_cases hc : cid = ""
    · simp only [hc, if_true]
      exact fun x hx => hx
    · simp only [hc, if_false]
      intro x hx
      simp only [List.mem_map] at hx ⊢
      obtain ⟨p, hp, hpx⟩ := hx
      exact ⟨p, List.mem_of_mem_filter hp, hpx⟩

/-- C8 counterexample: from a registry already containing the identity that
the random draw would generate ("0000000000000000"), `join` replaces the
record instead of adding one, so `leave` on the identity `join` returned
drops the count to 0 instead of restoring the pre-join count 1. -/
theorem join_leave_count_cex :
    ¬ (((roomHex.join wsOpen none [0, 0, 0, 0, 0, 0, 0, 0] 7).1.leave
        (Sum.inr (roomHex.join wsOpen none
          [0, 0, 0, 0, 0, 0, 0, 0] 7).2.2)).2.getClientCount =
      roomHex.getClientCount) := by decide

/-- C8 (amended): provided the identity that `join` registers is not already
a key of the registry — always true from an empty registry, and true with
overwhelming probability for generated identities (the code accepts the
negligible collision risk without a retry loop) — `join` followed immediately
by `leave` on the returned identity restores the registry exactly (hence the
previous client count, 0 from an empty registry), and a second `leave` on the
same identity returns false. Random draws carry `randomBytes(8)`'s 8 bytes. -/
theorem join_leave_roundtrip (r : Room) (client : WS) (cid : Option String)
    (rnd : List Nat) (now : Nat) (hr : rnd.length = 8)
    (hfresh : mapHas r.clients (r.join client cid rnd now).2.2 = false) :
    (r.join client cid rnd now).1.leave
        (Sum.inr (r.join client cid rnd now).2.2) = (true, r) ∧
    (((r.join client cid rnd now).1.leave
        (Sum.inr (r.join client cid rnd now).2.2)).2.leave
        (Sum.inr (r.join client cid rnd now).2.2)).1 = false ∧
    ((Room.init.join client cid rnd now).1.leave
        (Sum.inr (Room.init.join client cid rnd now).2.2)).2.getClientCount = 0 := by
  have hne := join_id_ne_empty r client cid rnd now hr
  have hjoin := join_clients r client cid rnd now
  have hfirst : (r.join client cid rnd now).1.leave
      (Sum.inr (r.join client cid rnd now).2.2) = (true, r) := by
    rw [leave_inr _ _ hne, hjoin]
    rw [mapHas_mapSet_self, filter_mapSet_erase _ _ _ hfresh]
  refine ⟨hfirst, ?_, ?_⟩
  · rw [hfirst, leave_inr _ _ hne]
    exact hfresh
  · have hne0 := join_id_ne_empty Room.init client cid rnd now hr
    have hf0 : mapHas Room.init.clients (Room.init.join client cid rnd now).2.2 = false := rfl
    have h0 : (Room.init.join client cid rnd now).1.leave
        (Sum.inr (Room.init.join client cid rnd now).2.2) = (true, Room.init) := by
      rw [leave_inr _ _ hne0, join_clients Room.init client cid rnd now]
      rw [mapHas_mapSet_self, filter_mapSet_erase _ _ _ hf0]
    rw [h0]
    rfl

/-- Witness for C8 (amended): join then leave of a generated identity on the
empty registry restores the empty registry, and a second leave reports
false. -/
theorem join_leave_roundtrip_witness :
    (Room.init.join wsOpen none [0, 1, 2, 3, 4, 5, 6, 7] 0).1.leave
        (Sum.inr (Room.init.join wsOpen none [0, 1, 2, 3, 4, 5, 6, 7] 0).2.2) =
      (true, Room.init) ∧
    (((Room.init.join wsOpen none [0, 1, 2, 3, 4, 5, 6, 7] 0).1.leave
        (Sum.inr (Room.init.join wsOpen none [0, 1, 2, 3, 4, 5, 6, 7] 0).2.2)).2.leave
        (Sum.inr (Room.init.join wsOpen none [0, 1, 2, 3, 4, 5, 6, 7] 0).2.2)).1 =
      false := by
  have h := join_leave_roundtrip Room.init wsOpen none [0, 1, 2, 3, 4, 5, 6, 7] 0
    rfl (by decide)
  exact ⟨h.1, h.2.1⟩

/-- C9: a falsy supplied identity — the empty string — is treated as omitted:
`join` registers the client under the freshly generated random identity (the
hex encoding of the random bytes), and consequently an empty-string identity
can never be a key of the registry after any sequence of operations whose
random draws carry `randomBytes(8)`'s 8 bytes. -/
theorem empty_identity_never_registered :
    (∀ (r : Room) (client : WS) (rnd : List Nat) (now : Nat),
      (r.join client (some "") rnd now).2.2 = bytesToHex rnd ∧
      (r.join client (some "") rnd now).1.getClient (bytesToHex rnd) =
        some { ws := { client with clientId := some (bytesToHex rnd) },
               id := bytesToHex rnd, joinedAt := now }) ∧
    (∀ ops : List RegistryOp, (∀ op ∈ ops, op.wf) →
      "" ∉ (applyOps Room.init ops).getClientIds) := by
  have hemp : ∀ (r : Room) (client : WS) (rnd : List Nat) (now : Nat),
      (r.join client (some "") rnd now).2.2 = bytesToHex rnd := by
    intro r client rnd now
    rw [join_snd_snd]
    simp
  constructor
  · intro r client rnd now
    refine ⟨hemp r client rnd now, ?_⟩
    have hcl := join_clients r client (some "") rnd now
    rw [hemp r client rnd now] at hcl
    show mapGet (r.join client (some "") rnd now).1.clients (bytesToHex rnd) = _
    rw [hcl]
    exact mapGet_mapSet_self _ _ _
  · have step : ∀ (r : Room) (op : RegistryOp), op.wf → "" ∉ r.getClientIds →
        "" ∉ (applyOp r op).getClientIds := by
      intro r op hwf hmem
      cases op with
      | join client cid rnd now =>
        intro hc
        have hc2 : "" ∈ ((r.join client cid rnd now).1.clients.map (fun p => p.1)) := hc
        rw [join_clients] at hc2
        cases mem_keys_mapSet _ _ _ _ hc2 with
        | inl h => exact hmem h
        | inr h => exact join_id_ne_empty r client cid rnd now hwf h.symm
      | leave arg =>
        intro hc
        exact hmem (leave_keys_subset r arg hc)
      | forward m => exact hmem
      | send cid m =>
        intro hc
        have hs := sendToClient_fst r cid m
        rw [show applyOp r (RegistryOp.send cid m) = (r.sendToClient cid m).1 from rfl,
          hs] at hc
        exact hmem hc
      | clear => intro hc; cases hc
    have general : ∀ (ops : List RegistryOp) (r : Room), (∀ op ∈ ops, op.wf) →
        "" ∉ r.getClientIds → "" ∉ (applyOps r ops).getClientIds := by
      intro ops
      induction ops with
      | nil => intro r _ h; exact h
      | cons op t ih =>
        intro r hops h
        exact ih (applyOp r op) (fun o ho => hops o (List.mem_cons_of_mem _ ho))
          (step r op (hops op (List.mem_cons_self _ _)) h)
    intro ops hops
    exact general ops Room.init hops (List.not_mem_nil "")

/-- Witness for C9: joining with the empty-string identity from a fresh room
registers under the generated hex identity, and the empty string is not among
the client ids afterwards. -/
theorem empty_identity_never_registered_witness :
    (Room.init.join wsOpen (some "") [1, 2, 3, 4, 5, 6, 7, 8] 0).2.2 =
      bytesToHex [1, 2, 3, 4, 5, 6, 7, 8] ∧
    "" ∉ (applyOps Room.init
      [RegistryOp.join wsOpen (some "") [1, 2, 3, 4, 5, 6, 7, 8] 0]).getClientIds := by
  refine ⟨(empty_identity_never_registered.1 Room.init wsOpen
    [1, 2, 3, 4, 5, 6, 7, 8] 0).1, ?_⟩
  refine empty_identity_never_registered.2 _ ?_
  intro op hop
  rw [List.mem_singleton] at hop
  subst hop
  show ([1, 2, 3, 4, 5, 6, 7, 8] : List Nat).length = 8
  rfl

/-- C4 counterexample: the identity generated by `join` comes from
`crypto.randomBytes(8)` — 8 random bytes hex-encoded into 16 characters —
so it does not contain the claimed ≥ 32 hex characters (≥ 16 bytes) of
random material: at the concrete draw 0..7 its length is 16 < 32. -/
theorem generated_identity_length_cex :
    (Room.init.join wsOpen none [0, 1, 2, 3, 4, 5, 6, 7] 0).2.2.length = 16 ∧
    ¬ (32 ≤ (Room.init.join wsOpen none [0, 1, 2, 3, 4, 5, 6, 7] 0).2.2.length) := by
  decide

/-- C4 (amended): when `join` generates the identity (none supplied by the
caller), the identity is the lowercase hex encoding of the 8 random bytes
drawn by `crypto.randomBytes(8)`: 8 bytes of entropy, exactly 16 hex
characters. -/
theorem generated_identity_eight_bytes_hex (r : Room) (client : WS)
    (rnd : List Nat) (now : Nat) (hr : rnd.length = 8) :
    (r.join client none rnd now).2.2 = bytesToHex rnd ∧
    (r.join client none rnd now).2.2.length = 16 ∧
    ∀ c ∈ (r.join client none rnd now).2.2.data, c ∈ hexChars := by
  have hid : (r.join client none rnd now).2.2 = bytesToHex rnd := by
    rw [join_snd_snd]
  refine ⟨hid, ?_, ?_⟩
  · rw [hid, bytesToHex_length, hr]
  · intro c hc
    rw [hid] at hc
    exact bytesToHex_mem rnd c hc

/-- Witness for C4 (amended): the concrete draw 0..7 yields the
16-character generated identity. -/
theorem generated_identity_eight_bytes_hex_witness :
    (Room.init.join wsOpen none [0, 1, 2, 3, 4, 5, 6, 7] 0).2.2 =
      bytesToHex [0, 1, 2, 3, 4, 5, 6, 7] ∧
    (Room.init.join wsOpen none [0, 1, 2, 3, 4, 5, 6, 7] 0).2.2.length = 16 := by
  have h := generated_identity_eight_bytes_hex Room.init wsOpen
    [0, 1, 2, 3, 4, 5, 6, 7] 0 rfl
  exact ⟨h.1, h.2.1⟩
